import Mathlib

/-!
Shallow embedding of the storage layer of the hospital-management-system
repository: the in-memory repository (`MemStorage` in server/storage.ts)
and the durable repository (`DatabaseStorage`), together with proofs about
id generation, join assembly, authentication and the CRUD operations.
Strings are modelled as lists of characters, JS `Map`s as association
lists in insertion order, and thrown errors as `Except` values.
-/

set_option autoImplicit false

deriving instance DecidableEq for Except

namespace HMS

/-- Character-list model of JS strings. -/
abbrev Str := List Char

/-- JS truthiness fallback `s || d` for an optional string: `undefined`,
`null` and the empty string are falsy. -/
def jsOrStr (v : Option Str) (d : Str) : Str :=
  match v with
  | some s => if s = [] then d else s
  | none => d

/-- JS fallback `x || d` for an optional number: `undefined`, `null` and `0`
are falsy. -/
def jsOrInt (v : Option Int) (d : Int) : Int :=
  match v with
  | some x => if x = 0 then d else x
  | none => d

/-- JS fallback `n || d` for an optional counter value. -/
def jsOrNat (v : Option Nat) (d : Nat) : Nat :=
  match v with
  | some n => if n = 0 then d else n
  | none => d

/-- JS fallback `x || null` for a nullable string field. -/
def jsOrNull (v : Option Str) : Option Str :=
  match v with
  | some s => if s = [] then none else some s
  | none => none

/-- Lookup in a JS `Map` modelled as an association list (first match). -/
def mget {κ α : Type} [DecidableEq κ] (m : List (κ × α)) (k : κ) : Option α :=
  match m with
  | [] => none
  | (k', v) :: rest => if k' = k then some v else mget rest k

/-- JS `Map.set`: replace the entry in place if the key is present,
otherwise append a new entry. -/
def mset {κ α : Type} [DecidableEq κ] (m : List (κ × α)) (k : κ) (v : α) :
    List (κ × α) :=
  match m with
  | [] => [(k, v)]
  | (k', v') :: rest =>
      if k' = k then (k, v) :: rest else (k', v') :: mset rest k v

/-- JS `Map.values()` in insertion order. -/
def mvalues {κ α : Type} (m : List (κ × α)) : List α :=
  m.map Prod.snd

/-! Decimal rendering and parsing, modelling JS `Number.prototype.toString`,
`String.prototype.padStart` and `parseInt`. -/

/-- Character for a decimal digit value. -/
def digitCh (d : Nat) : Char := Char.ofNat (48 + d)

/-- Base-10 digits of `n`, least significant first, with explicit fuel so
that the definition reduces in the kernel.  With `fuel ≥ n` this agrees
with `Nat.digits 10 n`. -/
def digitsRevFuel : Nat → Nat → List Nat
  | 0, _ => []
  | fuel + 1, n => if n = 0 then [] else n % 10 :: digitsRevFuel fuel (n / 10)

/-- JS `n.toString()` for a natural number: its decimal digit string. -/
def natToChars (n : Nat) : Str :=
  if n = 0 then ['0'] else ((digitsRevFuel n n).reverse.map digitCh)

/-- JS `s.padStart(4, '0')`. -/
def padStart4 (s : Str) : Str :=
  List.replicate (4 - s.length) '0' ++ s

/-- Decimal digit test on a character ('0' to '9'). -/
def isDigitC (c : Char) : Bool :=
  decide (48 ≤ c.toNat ∧ c.toNat ≤ 57)

/-- Whitespace test used by `parseInt` when skipping leading blanks. -/
def isSpaceC (c : Char) : Bool :=
  decide (c.toNat = 32 ∨ c.toNat = 9 ∨ c.toNat = 10 ∨ c.toNat = 13)

/-- Numeric value of a digit character. -/
def chVal (c : Char) : Nat := c.toNat - 48

/-- Accumulate the value of a big-endian digit-character list. -/
def valFold (l : Str) : Nat :=
  l.foldl (fun a c => a * 10 + chVal c) 0

/-- Parse the longest leading run of decimal digits, `none` when there is
none (modelling the `NaN` result of `parseInt`). -/
def digitsVal? (l : Str) : Option Nat :=
  let ds := l.takeWhile isDigitC
  if ds = [] then none else some (valFold ds)

/-- JS `parseInt(s)` (base 10): skip leading whitespace, read an optional
sign, then the longest run of decimal digits; `none` models `NaN`. -/
def parseIntJS (s : Str) : Option Int :=
  let t := s.dropWhile isSpaceC
  if t = [] then none
  else if t.head? = some '-' then (digitsVal? t.tail).map (fun n => -(n : Int))
  else if t.head? = some '+' then (digitsVal? t.tail).map (fun n => (n : Int))
  else (digitsVal? t).map (fun n => (n : Int))

/-! Data model, translated from shared/schema.ts.  Timestamps are modelled
as natural numbers; nullable columns as `Option`. -/

structure User where
  id : Str
  firstName : Str
  lastName : Str
  email : Str
  password : Str
  phone : Str
  address : Str
  role : Str
  status : Str
  createdAt : Nat
deriving DecidableEq

structure Doctor where
  id : Str
  userId : Str
  specialization : Str
  licenseNumber : Str
  experience : Int
deriving DecidableEq

structure Patient where
  id : Str
  userId : Str
  dateOfBirth : Str
  gender : Str
  emergencyContact : Option Str
  bloodType : Option Str
deriving DecidableEq

structure Appointment where
  id : Nat
  patientId : Str
  doctorId : Str
  date : Str
  time : Str
  duration : Int
  reason : Str
  status : Str
  type : Str
  notes : Option Str
  createdAt : Nat
deriving DecidableEq

structure Specialization where
  id : Nat
  name : Str
  description : Option Str
deriving DecidableEq

/-- Insert shape for users (schema minus id and createdAt; status column
has a default, so it is optional). -/
structure InsertUser where
  firstName : Str
  lastName : Str
  email : Str
  password : Str
  phone : Str
  address : Str
  role : Str
  status : Option Str
deriving DecidableEq

structure InsertDoctor where
  userId : Str
  specialization : Str
  licenseNumber : Str
  experience : Option Int
deriving DecidableEq

structure InsertPatient where
  userId : Str
  dateOfBirth : Str
  gender : Str
  emergencyContact : Option Str
  bloodType : Option Str
deriving DecidableEq

structure InsertAppointment where
  patientId : Str
  doctorId : Str
  date : Str
  time : Str
  duration : Option Int
  reason : Str
  status : Option Str
  type : Option Str
  notes : Option Str
deriving DecidableEq

structure InsertSpecialization where
  name : Str
  description : Option Str
deriving DecidableEq

/-- TS `Partial` of an insert shape: each field may be absent. -/
structure UserPatch where
  firstName : Option Str := none
  lastName : Option Str := none
  email : Option Str := none
  password : Option Str := none
  phone : Option Str := none
  address : Option Str := none
  role : Option Str := none
  status : Option Str := none
deriving DecidableEq

structure DoctorPatch where
  userId : Option Str := none
  specialization : Option Str := none
  licenseNumber : Option Str := none
  experience : Option Int := none
deriving DecidableEq

structure PatientPatch where
  userId : Option Str := none
  dateOfBirth : Option Str := none
  gender : Option Str := none
  emergencyContact : Option (Option Str) := none
  bloodType : Option (Option Str) := none
deriving DecidableEq

structure ApptPatch where
  patientId : Option Str := none
  doctorId : Option Str := none
  date : Option Str := none
  time : Option Str := none
  duration : Option Int := none
  reason : Option Str := none
  status : Option Str := none
  type : Option Str := none
  notes : Option (Option Str) := none
deriving DecidableEq

/-- Composite view `UserWithRole = User & {doctorInfo?, patientInfo?}`.
The outer `Option` on the info fields records whether the JS property was
assigned at all; the inner one is the (possibly absent) lookup result. -/
structure UserWithRole where
  user : User
  doctorInfo : Option (Option Doctor)
  patientInfo : Option (Option Patient)
deriving DecidableEq

/-- Composite view `DoctorWithUser = Doctor & {user}`. -/
structure DoctorWithUser where
  doc : Doctor
  user : User
deriving DecidableEq

/-- Composite view `PatientWithUser = Patient & {user}`. -/
structure PatientWithUser where
  pat : Patient
  user : User
deriving DecidableEq

/-- The `doctor` component of `AppointmentWithDetails`:
`User & {doctorInfo: Doctor}`. -/
structure ApptDoctor where
  user : User
  doctorInfo : Doctor
deriving DecidableEq

/-- Composite view `AppointmentWithDetails`. -/
structure AppointmentWithDetails where
  appt : Appointment
  patient : User
  doctor : ApptDoctor
deriving DecidableEq

/-- Shallow merge `{...user, ...updates}`. -/
def mergeUser (u : User) (p : UserPatch) : User :=
  { u with
    firstName := p.firstName.getD u.firstName
    lastName := p.lastName.getD u.lastName
    email := p.email.getD u.email
    password := p.password.getD u.password
    phone := p.phone.getD u.phone
    address := p.address.getD u.address
    role := p.role.getD u.role
    status := p.status.getD u.status }

/-- Shallow merge `{...doctor, ...updates}`. -/
def mergeDoctor (d : Doctor) (p : DoctorPatch) : Doctor :=
  { d with
    userId := p.userId.getD d.userId
    specialization := p.specialization.getD d.specialization
    licenseNumber := p.licenseNumber.getD d.licenseNumber
    experience := p.experience.getD d.experience }

/-- Shallow merge `{...patient, ...updates}`. -/
def mergePatient (q : Patient) (p : PatientPatch) : Patient :=
  { q with
    userId := p.userId.getD q.userId
    dateOfBirth := p.dateOfBirth.getD q.dateOfBirth
    gender := p.gender.getD q.gender
    emergencyContact := p.emergencyContact.getD q.emergencyContact
    bloodType := p.bloodType.getD q.bloodType }

/-- Shallow merge `{...appointment, ...updates}`. -/
def mergeAppointment (a : Appointment) (p : ApptPatch) : Appointment :=
  { a with
    patientId := p.patientId.getD a.patientId
    doctorId := p.doctorId.getD a.doctorId
    date := p.date.getD a.date
    time := p.time.getD a.time
    duration := p.duration.getD a.duration
    reason := p.reason.getD a.reason
    status := p.status.getD a.status
    type := p.type.getD a.type
    notes := p.notes.getD a.notes }

def strAdmin : Str := "admin".data
def strDoctor : Str := "doctor".data
def strReceptionist : Str := "receptionist".data
def strPatient : Str := "patient".data
def strInvalidRole : Str := "Invalid role".data
def strActive : Str := "active".data
def strScheduled : Str := "scheduled".data
def strConsultation : Str := "consultation".data
def strCancelled : Str := "cancelled".data

/-- The own properties of the `prefixes` object literal inside
`generateUserId`: the role-to-3-letter-code table. -/
def rolePre (role : Str) : Option Str :=
  if role = strAdmin then some "ADM".data
  else if role = strDoctor then some "DOC".data
  else if role = strReceptionist then some "REC".data
  else if role = strPatient then some "PAT".data
  else none

/-- Property names every plain object literal inherits from
`Object.prototype` (ECMA-262 sec. 20.2.3 together with the Annex B legacy
accessors, all present in Node):  a lookup `prefixes[name]` for any of
these names finds the inherited member instead of `undefined`. -/
def protoProps : List Str :=
  ["constructor".data, "hasOwnProperty".data, "isPrototypeOf".data,
   "propertyIsEnumerable".data, "toLocaleString".data, "toString".data,
   "valueOf".data, "__proto__".data, "__defineGetter__".data,
   "__defineSetter__".data, "__lookupGetter__".data,
   "__lookupSetter__".data]

/-- The value of the JS property access `prefixes[role]` when it is not
`undefined`: one of the four own prefix strings, or a member inherited
from `Object.prototype` (a built-in function, or the prototype object
itself for `__proto__`). -/
inductive PrefixVal where
  | str (s : Str)
  | protoMember (name : Str)
deriving DecidableEq

/-- The JS property access `prefixes[role as keyof typeof prefixes]`: own
properties first, then the prototype chain, then `undefined`. -/
def prefixLookup (role : Str) : Option PrefixVal :=
  match rolePre role with
  | some s => some (.str s)
  | none =>
      if role ∈ protoProps then some (.protoMember role) else none

/-- JS truthiness of the looked-up value (for the `if (!prefix)` guard):
`undefined` is handled by the caller, a string is truthy iff non-empty,
and every inherited `Object.prototype` member is truthy (a function, or
the prototype object for `__proto__`). -/
def PrefixVal.truthy : PrefixVal → Bool
  | .str s => !s.isEmpty
  | .protoMember _ => true

/-- Template-literal stringification of the looked-up value.  An own
prefix renders as itself; an inherited built-in function renders in V8 as
its native-code source form, and the `__proto__` object as its object
tag.  No theorem depends on the exact junk text. -/
def PrefixVal.render : PrefixVal → Str
  | .str s => s
  | .protoMember name =>
      if name = "__proto__".data then "[object Object]".data
      else "function ".data ++ name ++ "() \x7b [native code] \x7d".data

/-! In-memory repository (`MemStorage` in server/storage.ts).  The private
`Map` fields become association lists; `new Date()` is modelled by the
`now` field of the state. -/

structure MemState where
  users : List (Str × User)
  doctors : List (Str × Doctor)
  patients : List (Str × Patient)
  appointments : List (Nat × Appointment)
  specializations : List (Nat × Specialization)
  currentAppointmentId : Nat
  currentSpecializationId : Nat
  idCounters : List (Str × Nat)
  now : Nat
deriving DecidableEq

namespace MemStorage

/-- generateUserId(role): look `role` up on the `prefixes` object (own
properties, then the prototype chain), throw `Invalid role` when the
result is falsy (`undefined`, in particular), read the per-role counter
(`|| 1`), build `prefix + counter.toString().padStart(4, '0')` and bump
the counter. -/
def generateUserId (role : Str) (s : MemState) :
    Except Str (Str × MemState) :=
  match prefixLookup role with
  | none => .error strInvalidRole
  | some pv =>
      if pv.truthy = false then .error strInvalidRole
      else
        let counter := jsOrNat (mget s.idCounters role) 1
        let id := pv.render ++ padStart4 (natToChars counter)
        .ok (id,
          { s with idCounters := mset s.idCounters role (counter + 1) })

def getUser (id : Str) (s : MemState) : Option User :=
  mget s.users id

def getUserByEmail (email : Str) (s : MemState) : Option User :=
  (mvalues s.users).find? (fun u => decide (u.email = email))

def createUser (iu : InsertUser) (s : MemState) :
    Except Str (User × MemState) :=
  match generateUserId iu.role s with
  | .error e => .error e
  | .ok (id, s₁) =>
      let u : User :=
        { id := id
          firstName := iu.firstName
          lastName := iu.lastName
          email := iu.email
          password := iu.password
          phone := iu.phone
          address := iu.address
          role := iu.role
          status := jsOrStr iu.status strActive
          createdAt := s₁.now }
      .ok (u, { s₁ with users := mset s₁.users id u })

def updateUser (id : Str) (p : UserPatch) (s : MemState) :
    Option User × MemState :=
  match mget s.users id with
  | none => (none, s)
  | some u =>
      let u' := mergeUser u p
      (some u', { s with users := mset s.users id u' })

def getDoctor (id : Str) (s : MemState) : Option Doctor :=
  mget s.doctors id

/-- getDoctors(): join each doctor with its owning user, silently skipping
doctors whose user is missing. -/
def getDoctors (s : MemState) : List DoctorWithUser :=
  (mvalues s.doctors).filterMap (fun d =>
    (getUser d.userId s).map (fun u => { doc := d, user := u }))

/-- createDoctor: the stored record's key and id are the supplied userId. -/
def createDoctor (idr : InsertDoctor) (s : MemState) : Doctor × MemState :=
  let id := idr.userId
  let d : Doctor :=
    { id := id
      userId := idr.userId
      specialization := idr.specialization
      licenseNumber := idr.licenseNumber
      experience := jsOrInt idr.experience 0 }
  (d, { s with doctors := mset s.doctors id d })

def updateDoctor (id : Str) (p : DoctorPatch) (s : MemState) :
    Option Doctor × MemState :=
  match mget s.doctors id with
  | none => (none, s)
  | some d =>
      let d' := mergeDoctor d p
      (some d', { s with doctors := mset s.doctors id d' })

def getPatient (id : Str) (s : MemState) : Option Patient :=
  mget s.patients id

def getPatients (s : MemState) : List PatientWithUser :=
  (mvalues s.patients).filterMap (fun q =>
    (getUser q.userId s).map (fun u => { pat := q, user := u }))

def createPatient (ip : InsertPatient) (s : MemState) : Patient × MemState :=
  let id := ip.userId
  let q : Patient :=
    { id := id
      userId := ip.userId
      dateOfBirth := ip.dateOfBirth
      gender := ip.gender
      emergencyContact := jsOrNull ip.emergencyContact
      bloodType := jsOrNull ip.bloodType }
  (q, { s with patients := mset s.patients id q })

def updatePatient (id : Str) (p : PatientPatch) (s : MemState) :
    Option Patient × MemState :=
  match mget s.patients id with
  | none => (none, s)
  | some q =>
      let q' := mergePatient q p
      (some q', { s with patients := mset s.patients id q' })

def getAppointment (id : Nat) (s : MemState) : Option Appointment :=
  mget s.appointments id

/-- getAppointments(): for each stored appointment, look up the user at
patientId, the doctor at doctorId and that doctor's owning user; include
the joined row only when all three are found. -/
def getAppointments (s : MemState) : List AppointmentWithDetails :=
  (mvalues s.appointments).filterMap (fun a =>
    let patient := getUser a.patientId s
    let doctor := getDoctor a.doctorId s
    let doctorUser :=
      match doctor with
      | some d => getUser d.userId s
      | none => none
    match patient, doctor, doctorUser with
    | some p, some d, some du =>
        some { appt := a, patient := p, doctor := { user := du, doctorInfo := d } }
    | _, _, _ => none)

def getAppointmentsByPatient (patientId : Str) (s : MemState) :
    List AppointmentWithDetails :=
  (getAppointments s).filter (fun apt => decide (apt.appt.patientId = patientId))

def getAppointmentsByDoctor (doctorId : Str) (s : MemState) :
    List AppointmentWithDetails :=
  (getAppointments s).filter (fun apt => decide (apt.appt.doctorId = doctorId))

def createAppointment (ia : InsertAppointment) (s : MemState) :
    Appointment × MemState :=
  let id := s.currentAppointmentId
  let a : Appointment :=
    { id := id
      patientId := ia.patientId
      doctorId := ia.doctorId
      date := ia.date
      time := ia.time
      duration := jsOrInt ia.duration 30
      reason := ia.reason
      status := jsOrStr ia.status strScheduled
      type := jsOrStr ia.type strConsultation
      notes := jsOrNull ia.notes
      createdAt := s.now }
  (a, { s with
          appointments := mset s.appointments id a
          currentAppointmentId := id + 1 })

def updateAppointment (id : Nat) (p : ApptPatch) (s : MemState) :
    Option Appointment × MemState :=
  match mget s.appointments id with
  | none => (none, s)
  | some a =>
      let a' := mergeAppointment a p
      (some a', { s with appointments := mset s.appointments id a' })

def getSpecializations (s : MemState) : List Specialization :=
  mvalues s.specializations

def createSpecialization (isp : InsertSpecialization) (s : MemState) :
    Specialization × MemState :=
  let id := s.currentSpecializationId
  let sp : Specialization :=
    { id := id
      name := isp.name
      description := jsOrNull isp.description }
  (sp, { s with
           specializations := mset s.specializations id sp
           currentSpecializationId := id + 1 })

/-- authenticateUser: look up the user, compare the password with strict
equality, then attach doctorInfo / patientInfo depending on the role. -/
def authenticateUser (userId password : Str) (s : MemState) :
    Option UserWithRole :=
  match mget s.users userId with
  | none => none
  | some u =>
      if u.password ≠ password then none
      else if u.role = strDoctor then
        some { user := u, doctorInfo := some (getDoctor userId s),
               patientInfo := none }
      else if u.role = strPatient then
        some { user := u, doctorInfo := none,
               patientInfo := some (getPatient userId s) }
      else
        some { user := u, doctorInfo := none, patientInfo := none }

end MemStorage

/-! Durable repository (`DatabaseStorage` in server/storage.ts of the
database variant).  Tables are modelled as row lists; only the operations
the claims need are embedded. -/

structure DbState where
  users : List User
  doctors : List Doctor
  patients : List Patient
  appointments : List Appointment
  specializations : List Specialization
deriving DecidableEq

namespace DatabaseStorage

/-- One iteration of the `maxNumber` loop of the durable generateUserId:
parse `id.substring(3)` and keep the larger value; a `parseInt` failure
(`NaN`) never updates the maximum. -/
def scanStep (m : Int) (u : User) : Int :=
  match parseIntJS (u.id.drop 3) with
  | some v => if m < v then v else m
  | none => m

/-- The `maxNumber` loop of the durable generateUserId, over all user ids
`LIKE prefix%`. -/
def scanMax (pre : Str) (rows : List User) : Int :=
  (rows.filter (fun u => decide (u.id.take pre.length = pre))).foldl
    scanStep 0

/-- Decimal rendering of the computed `newNumber` (always ≥ 1 here). -/
def intToChars (i : Int) : Str :=
  if i < 0 then '-' :: natToChars i.natAbs else natToChars i.toNat

/-- generateUserId(role) of the durable variant: scan existing ids with the
role's code, take max+1, and return the padded id.  The call performs no
write: nothing reserves the id. -/
def generateUserId (role : Str) (s : DbState) : Except Str Str :=
  match prefixLookup role with
  | none => .error strInvalidRole
  | some pv =>
      if pv.truthy = false then .error strInvalidRole
      else
        let pre := pv.render
        let maxNumber := scanMax pre s.users
        let newNumber := maxNumber + 1
        .ok (pre ++ padStart4 (intToChars newNumber))

/-- getAppointments() of the durable variant: inner joins
appointments-patients (patientId), -doctors (doctorId), -users
(patients.userId), then for each row a point lookup of the doctor's owning
user, skipping the row when it is missing. -/
def getAppointments (s : DbState) : List AppointmentWithDetails :=
  let rows := s.appointments.flatMap (fun a =>
    (s.patients.filter (fun p => decide (p.id = a.patientId))).flatMap (fun p =>
      (s.doctors.filter (fun d => decide (d.id = a.doctorId))).flatMap (fun d =>
        (s.users.filter (fun u => decide (u.id = p.userId))).map
          (fun pu => (a, p, pu, d)))))
  rows.filterMap (fun row =>
    ((s.users.find? (fun u => decide (u.id = row.2.2.2.userId))).map
      (fun du =>
        { appt := row.1
          patient := row.2.2.1
          doctor := { user := du, doctorInfo := row.2.2.2 } })))

end DatabaseStorage

/-! The full public interface of the repository, as one operation type, so
that properties quantifying over every repository operation can be stated.
Read-only operations leave the state unchanged; a thrown error (invalid
role) aborts the operation before any write. -/

inductive Op where
  | getUser (id : Str)
  | getUserByEmail (email : Str)
  | createUser (iu : InsertUser)
  | updateUser (id : Str) (p : UserPatch)
  | getDoctor (id : Str)
  | getDoctors
  | createDoctor (idr : InsertDoctor)
  | updateDoctor (id : Str) (p : DoctorPatch)
  | getPatient (id : Str)
  | getPatients
  | createPatient (ip : InsertPatient)
  | updatePatient (id : Str) (p : PatientPatch)
  | getAppointment (id : Nat)
  | getAppointments
  | getAppointmentsByPatient (patientId : Str)
  | getAppointmentsByDoctor (doctorId : Str)
  | createAppointment (ia : InsertAppointment)
  | updateAppointment (id : Nat) (p : ApptPatch)
  | getSpecializations
  | createSpecialization (isp : InsertSpecialization)
  | authenticateUser (userId password : Str)
  | generateUserId (role : Str)

/-- State transition of each interface operation on the in-memory store. -/
def Op.apply : Op → MemState → MemState
  | .getUser _, s => s
  | .getUserByEmail _, s => s
  | .createUser iu, s =>
      match MemStorage.createUser iu s with
      | .ok (_, s') => s'
      | .error _ => s
  | .updateUser id p, s => (MemStorage.updateUser id p s).2
  | .getDoctor _, s => s
  | .getDoctors, s => s
  | .createDoctor idr, s => (MemStorage.createDoctor idr s).2
  | .updateDoctor id p, s => (MemStorage.updateDoctor id p s).2
  | .getPatient _, s => s
  | .getPatients, s => s
  | .createPatient ip, s => (MemStorage.createPatient ip s).2
  | .updatePatient id p, s => (MemStorage.updatePatient id p s).2
  | .getAppointment _, s => s
  | .getAppointments, s => s
  | .getAppointmentsByPatient _, s => s
  | .getAppointmentsByDoctor _, s => s
  | .createAppointment ia, s => (MemStorage.createAppointment ia s).2
  | .updateAppointment id p, s => (MemStorage.updateAppointment id p s).2
  | .getSpecializations, s => s
  | .createSpecialization isp, s => (MemStorage.createSpecialization isp s).2
  | .authenticateUser _ _, s => s
  | .generateUserId role, s =>
      match MemStorage.generateUserId role s with
      | .ok (_, s') => s'
      | .error _ => s

/-- Run a batch of interface operations in order. -/
def applyOps (ops : List Op) (s : MemState) : MemState :=
  ops.foldl (fun st op => Op.apply op st) s

/-- The per-role counter value the next in-memory generateUserId call will
use (`this.idCounters.get(role) || 1`). -/
def ctrOf (s : MemState) (r : Str) : Nat :=
  jsOrNat (mget s.idCounters r) 1

/-- Repeated in-memory generateUserId calls for one role, with an
arbitrary batch of other repository operations run before each call
(modelling records being inserted, or not, between calls). -/
def memGenSeq (r : Str) : List (List Op) → MemState → List Str
  | [], _ => []
  | ops :: rest, s =>
      let s₁ := applyOps ops s
      match MemStorage.generateUserId r s₁ with
      | .error _ => []
      | .ok (id, s₂) => id :: memGenSeq r rest s₂

/-- Repeated durable generateUserId calls with nothing inserted between
calls: the database state is reused unchanged. -/
def dbGenCallsNoInsert (r : Str) : Nat → DbState → List Str
  | 0, _ => []
  | n + 1, s =>
      match DatabaseStorage.generateUserId r s with
      | .error _ => []
      | .ok id => id :: dbGenCallsNoInsert r n s

/-- Repeated durable generateUserId calls where after each call a user row
carrying the generated id (built by `mk`) is inserted before the next
call. -/
def dbGenInsertSeq (r : Str) (mk : Str → User) : Nat → DbState → List Str
  | 0, _ => []
  | n + 1, s =>
      match DatabaseStorage.generateUserId r s with
      | .error _ => []
      | .ok id =>
          id :: dbGenInsertSeq r mk n { s with users := s.users ++ [mk id] }

/-! Concrete records and states used to exercise the theorems on explicit
inputs. -/

/-- The partial update `{status: "cancelled"}`. -/
def cancelPatch : ApptPatch := { status := some strCancelled }

def uAdmin : User :=
  { id := "ADM0001".data, firstName := "Admin".data, lastName := "User".data
    email := "admin@hospital.com".data, password := "admin123".data
    phone := "+1-555-0100".data, address := "123 Hospital St".data
    role := strAdmin, status := strActive, createdAt := 0 }

def uDoc : User :=
  { id := "DOC0001".data, firstName := "John".data, lastName := "Smith".data
    email := "doctor@hospital.com".data, password := "doctor123".data
    phone := "+1-555-0101".data, address := "456 Medical Ave".data
    role := strDoctor, status := strActive, createdAt := 0 }

def uPat : User :=
  { id := "PAT0001".data, firstName := "Michael".data, lastName := "Brown".data
    email := "patient@hospital.com".data, password := "patient123".data
    phone := "+1-555-0103".data, address := "321 Patient Lane".data
    role := strPatient, status := strActive, createdAt := 0 }

def dDoc : Doctor :=
  { id := "DOC0001".data, userId := "DOC0001".data
    specialization := "cardiology".data, licenseNumber := "MD123456".data
    experience := 10 }

def pPat : Patient :=
  { id := "PAT0001".data, userId := "PAT0001".data
    dateOfBirth := "1985-06-15".data, gender := "male".data
    emergencyContact := none, bloodType := some "O+".data }

def apptOk : Appointment :=
  { id := 1, patientId := "PAT0001".data, doctorId := "DOC0001".data
    date := "2025-01-01".data, time := "10:00".data, duration := 30
    reason := "checkup".data, status := strScheduled
    type := strConsultation, notes := none, createdAt := 0 }

/-- A populated, well-linked in-memory state. -/
def memWF : MemState :=
  { users := [("ADM0001".data, uAdmin), ("DOC0001".data, uDoc),
              ("PAT0001".data, uPat)]
    doctors := [("DOC0001".data, dDoc)]
    patients := [("PAT0001".data, pPat)]
    appointments := [(1, apptOk)]
    specializations := []
    currentAppointmentId := 2
    currentSpecializationId := 1
    idCounters := [(strAdmin, 2), (strDoctor, 2), (strReceptionist, 1),
                   (strPatient, 2)]
    now := 0 }

/-- A state whose patient record PAT0001 exists while the user PAT0001
does not: the appointment is fully linked in the sense of the spec but the
in-memory join drops it. -/
def memCex : MemState :=
  { users := [("DOC0001".data, uDoc)]
    doctors := [("DOC0001".data, dDoc)]
    patients := [("PAT0001".data, pPat)]
    appointments := [(1, apptOk)]
    specializations := []
    currentAppointmentId := 2
    currentSpecializationId := 1
    idCounters := [(strAdmin, 1), (strDoctor, 2), (strReceptionist, 1),
                   (strPatient, 1)]
    now := 0 }

def dbEmpty : DbState :=
  { users := [], doctors := [], patients := [], appointments := []
    specializations := [] }

/-- A user-row template carrying a given id, for the durable id-generation
sequences. -/
def mkUserRow (i : Str) : User :=
  { id := i, firstName := [], lastName := [], email := [], password := []
    phone := [], address := [], role := strAdmin, status := strActive
    createdAt := 0 }

def iuSample : InsertUser :=
  { firstName := "Jane".data, lastName := "Doe".data
    email := "jane@hospital.com".data, password := "pw1234".data
    phone := "+1-555-0110".data, address := "1 Main St".data
    role := strAdmin, status := none }

def idrSample : InsertDoctor :=
  { userId := "DOC0001".data, specialization := "neurology".data
    licenseNumber := "MD999".data, experience := some 5 }

def idrSample2 : InsertDoctor :=
  { userId := "DOC0001".data, specialization := "dermatology".data
    licenseNumber := "MD000".data, experience := none }

def ipSample : InsertPatient :=
  { userId := "PAT0001".data, dateOfBirth := "1990-01-01".data
    gender := "female".data, emergencyContact := none, bloodType := none }

def ipSample2 : InsertPatient :=
  { userId := "PAT0001".data, dateOfBirth := "1991-02-02".data
    gender := "other".data, emergencyContact := some "+1-555-0199".data
    bloodType := some "AB-".data }

/-! Helper lemmas about the map model and the decimal digit model. -/

@[simp]
theorem mget_nil {κ α : Type} [DecidableEq κ] (k : κ) :
    mget ([] : List (κ × α)) k = none := rfl

@[simp]
theorem mget_cons {κ α : Type} [DecidableEq κ] (k' k : κ) (v : α)
    (rest : List (κ × α)) :
    mget ((k', v) :: rest) k = if k' = k then some v else mget rest k := rfl

@[simp]
theorem mget_mset_self {κ α : Type} [DecidableEq κ] (m : List (κ × α))
    (k : κ) (v : α) : mget (mset m k v) k = some v := by
  induction m with
  | nil => simp [mset]
  | cons hd tl ih =>
      obtain ⟨k', v'⟩ := hd
      by_cases h : k' = k <;> simp [mset, h, ih]

theorem mget_mset_ne {κ α : Type} [DecidableEq κ] (m : List (κ × α))
    (k k' : κ) (v : α) (h : k' ≠ k) :
    mget (mset m k v) k' = mget m k' := by
  induction m with
  | nil => simp [mset, mget, Ne.symm h]
  | cons hd tl ih =>
      obtain ⟨k₀, v₀⟩ := hd
      by_cases h0 : k₀ = k
      · subst h0
        simp [mset, mget, Ne.symm h]
      · simp [mset, mget, h0, ih]

theorem mget_mset_isSome {κ α : Type} [DecidableEq κ] (m : List (κ × α))
    (k k' : κ) (v : α) (h : (mget m k').isSome) :
    (mget (mset m k v) k').isSome := by
  by_cases hk : k' = k
  · subst hk; simp
  · rwa [mget_mset_ne m k k' v hk]

theorem length_mset_of_isSome {κ α : Type} [DecidableEq κ]
    (m : List (κ × α)) (k : κ) (v : α) (h : (mget m k).isSome) :
    (mset m k v).length = m.length := by
  induction m with
  | nil => simp [mget] at h
  | cons hd tl ih =>
      obtain ⟨k₀, v₀⟩ := hd
      by_cases h0 : k₀ = k
      · simp [mset, h0]
      · simp [mget, h0] at h
        simp [mset, h0, ih h]

theorem digitsRevFuel_eq_digits :
    ∀ fuel n : Nat, n ≤ fuel → digitsRevFuel fuel n = Nat.digits 10 n := by
  intro fuel
  induction fuel with
  | zero =>
      intro n hn
      interval_cases n
      simp [digitsRevFuel]
  | succ f ih =>
      intro n hn
      by_cases h0 : n = 0
      · subst h0; simp [digitsRevFuel]
      · have hpos : 0 < n := Nat.pos_of_ne_zero h0
        have hdiv : n / 10 ≤ f := by
          have : n / 10 < n := Nat.div_lt_self hpos (by omega)
          omega
        rw [digitsRevFuel, if_neg h0, ih (n / 10) hdiv,
          Nat.digits_def' (by omega : 1 < 10) hpos]

theorem natToChars_eq (n : Nat) (h : n ≠ 0) :
    natToChars n = (Nat.digits 10 n).reverse.map digitCh := by
  rw [natToChars, if_neg h, digitsRevFuel_eq_digits n n le_rfl]

theorem isDigitC_digitCh (d : Nat) (h : d < 10) :
    isDigitC (digitCh d) = true := by
  interval_cases d <;> decide

theorem chVal_digitCh (d : Nat) (h : d < 10) : chVal (digitCh d) = d := by
  interval_cases d <;> decide

theorem natToChars_all_digits (n : Nat) :
    ∀ c ∈ natToChars n, isDigitC c = true := by
  by_cases h : n = 0
  · subst h; intro c hc; simp [natToChars] at hc; subst hc; decide
  · rw [natToChars_eq n h]
    intro c hc
    simp only [List.mem_map, List.mem_reverse] at hc
    obtain ⟨d, hd, rfl⟩ := hc
    exact isDigitC_digitCh d (Nat.digits_lt_base (by omega) hd)

theorem natToChars_ne_nil (n : Nat) : natToChars n ≠ [] := by
  by_cases h : n = 0
  · subst h; simp [natToChars]
  · rw [natToChars_eq n h]
    simp [Nat.digits_ne_nil_iff_ne_zero, h]

theorem foldr_digits_val (l : List Nat) (h : ∀ d ∈ l, d < 10) :
    List.foldr (fun d a => a * 10 + chVal (digitCh d)) 0 l =
      Nat.ofDigits 10 l := by
  induction l with
  | nil => simp [Nat.ofDigits]
  | cons d ds ih =>
      have hd : d < 10 := h d (List.mem_cons_self d ds)
      have hds : ∀ x ∈ ds, x < 10 := fun x hx => h x (List.mem_cons_of_mem d hx)
      simp only [List.foldr_cons, ih hds, Nat.ofDigits_cons,
        chVal_digitCh d hd]
      ring

theorem valFold_natToChars (n : Nat) : valFold (natToChars n) = n := by
  by_cases h : n = 0
  · subst h; decide
  · rw [natToChars_eq n h, valFold, List.map_reverse, List.foldl_reverse,
      List.foldr_map]
    rw [foldr_digits_val (Nat.digits 10 n)
      (fun d hd => Nat.digits_lt_base (by omega) hd)]
    exact Nat.ofDigits_digits 10 n

theorem valFold_append_zeros (k : Nat) (s : Str) :
    valFold (List.replicate k '0' ++ s) = valFold s := by
  induction k with
  | zero => simp
  | succ m ih =>
      show valFold ('0' :: (List.replicate m '0' ++ s)) = valFold s
      rw [valFold, List.foldl_cons]
      have : (0 : Nat) * 10 + chVal '0' = 0 := by decide
      rw [this]
      exact ih

theorem valFold_padStart4 (n : Nat) : valFold (padStart4 (natToChars n)) = n := by
  rw [padStart4, valFold_append_zeros, valFold_natToChars]

theorem padStart4_all_digits (n : Nat) :
    ∀ c ∈ padStart4 (natToChars n), isDigitC c = true := by
  intro c hc
  rw [padStart4, List.mem_append] at hc
  rcases hc with hc | hc
  · have : c = '0' := List.eq_of_mem_replicate hc
    subst this; decide
  · exact natToChars_all_digits n c hc

theorem takeWhile_eq_self_of_all {p : Char → Bool} :
    ∀ l : Str, (∀ c ∈ l, p c = true) → l.takeWhile p = l := by
  intro l h
  induction l with
  | nil => rfl
  | cons c cs ih =>
      simp [List.takeWhile_cons, h c (List.mem_cons_self c cs),
        ih (fun x hx => h x (List.mem_cons_of_mem c hx))]

theorem dropWhile_eq_self_of_head {p : Char → Bool} (c : Char) (cs : Str)
    (h : p c = false) : (c :: cs).dropWhile p = c :: cs := by
  rw [List.dropWhile_cons, h]
  simp

theorem digitsVal?_padStart4 (n : Nat) :
    digitsVal? (padStart4 (natToChars n)) = some n := by
  rw [digitsVal?]
  have hall := padStart4_all_digits n
  rw [takeWhile_eq_self_of_all _ hall]
  have hne : padStart4 (natToChars n) ≠ [] := by
    intro h
    have := natToChars_ne_nil n
    rcases List.append_eq_nil.mp (by rw [padStart4] at h; exact h) with ⟨_, h2⟩
    exact this h2
  rw [if_neg hne, valFold_padStart4]

theorem parseIntJS_padStart4 (n : Nat) :
    parseIntJS (padStart4 (natToChars n)) = some (n : Int) := by
  have hall := padStart4_all_digits n
  obtain ⟨c, cs, hcs⟩ : ∃ c cs, padStart4 (natToChars n) = c :: cs := by
    cases h : padStart4 (natToChars n) with
    | nil =>
        exfalso
        have := natToChars_ne_nil n
        rcases List.append_eq_nil.mp (by rw [padStart4] at h; exact h) with
          ⟨_, h2⟩
        exact this h2
    | cons c cs => exact ⟨c, cs, rfl⟩
  have hc : isDigitC c = true := by
    apply hall; rw [hcs]; exact List.mem_cons_self c cs
  have hcDig : 48 ≤ c.toNat ∧ c.toNat ≤ 57 := by
    simpa [isDigitC] using hc
  have hspace : isSpaceC c = false := by
    simp only [isSpaceC, decide_eq_false_iff_not]
    omega
  have hminus : ¬((c :: cs).head? = some '-') := by
    intro h
    simp only [List.head?_cons, Option.some.injEq] at h
    subst h
    exact absurd hcDig (by decide)
  have hplus : ¬((c :: cs).head? = some '+') := by
    intro h
    simp only [List.head?_cons, Option.some.injEq] at h
    subst h
    exact absurd hcDig (by decide)
  rw [parseIntJS, hcs, dropWhile_eq_self_of_head c cs hspace]
  rw [if_neg (List.cons_ne_nil c cs), if_neg hminus, if_neg hplus, ← hcs,
    digitsVal?_padStart4]
  rfl

theorem padStart4_natToChars_inj (m n : Nat)
    (h : padStart4 (natToChars m) = padStart4 (natToChars n)) : m = n := by
  have := congrArg valFold h
  rwa [valFold_padStart4, valFold_padStart4] at this

theorem rolePre_eq_none_iff (r : Str) :
    rolePre r = none ↔
      ¬(r = strAdmin ∨ r = strDoctor ∨ r = strReceptionist ∨ r = strPatient) := by
  unfold rolePre
  split_ifs <;> simp [*]

theorem rolePre_length (r pre : Str) (h : rolePre r = some pre) :
    pre.length = 3 := by
  unfold rolePre at h
  split_ifs at h <;> simp only [Option.some.injEq] at h <;> subst h <;> rfl

theorem prefixLookup_of_rolePre (r pre : Str) (h : rolePre r = some pre) :
    prefixLookup r = some (.str pre) := by
  unfold prefixLookup
  rw [h]

theorem rolePre_str_truthy (r pre : Str) (h : rolePre r = some pre) :
    PrefixVal.truthy (.str pre) = true := by
  have h3 := rolePre_length r pre h
  cases pre with
  | nil => simp at h3
  | cons c cs => rfl

/-- For a valid role, the in-memory generateUserId returns the prefixed
padded counter and bumps the counter. -/
theorem generateUserId_valid (s : MemState) (r pre : Str)
    (h : rolePre r = some pre) :
    MemStorage.generateUserId r s =
      .ok (pre ++ padStart4 (natToChars (ctrOf s r)),
        { s with idCounters := mset s.idCounters r (ctrOf s r + 1) }) := by
  simp only [MemStorage.generateUserId, prefixLookup_of_rolePre r pre h]
  rw [if_neg (by rw [rolePre_str_truthy r pre h]; decide)]
  rfl

/-- C4: the invalid-role guard leaks through the prototype chain.  The
role string "toString" is none of the four enum values, yet
generateUserId does not throw on it: the object lookup finds the
inherited, truthy `Object.prototype.toString`, so the guard passes and a
junk id is minted.  The four enum values succeed as specified, and a
role such as "nurse" (no own or inherited property) does throw. -/
theorem generateUserId_toString_no_throw (s : MemState) :
    ¬("toString".data = strAdmin ∨ "toString".data = strDoctor ∨
      "toString".data = strReceptionist ∨ "toString".data = strPatient) ∧
    (∃ id s', MemStorage.generateUserId "toString".data s = .ok (id, s')) ∧
    (∃ id s', MemStorage.generateUserId strAdmin s = .ok (id, s')) ∧
    (∃ id s', MemStorage.generateUserId strDoctor s = .ok (id, s')) ∧
    (∃ id s', MemStorage.generateUserId strReceptionist s = .ok (id, s')) ∧
    (∃ id s', MemStorage.generateUserId strPatient s = .ok (id, s')) ∧
    MemStorage.generateUserId "nurse".data s = .error strInvalidRole := by
  have hts : prefixLookup "toString".data =
      some (.protoMember "toString".data) := by decide
  have hnurse : prefixLookup "nurse".data = none := by decide
  refine ⟨by decide, ?_, ?_, ?_, ?_, ?_, ?_⟩
  · simp only [MemStorage.generateUserId, hts]
    rw [if_neg (by decide)]
    exact ⟨_, _, rfl⟩
  · exact ⟨_, _, generateUserId_valid s strAdmin ("ADM".data) (by decide)⟩
  · exact ⟨_, _, generateUserId_valid s strDoctor ("DOC".data) (by decide)⟩
  · exact ⟨_, _,
      generateUserId_valid s strReceptionist ("REC".data) (by decide)⟩
  · exact ⟨_, _, generateUserId_valid s strPatient ("PAT".data) (by decide)⟩
  · simp only [MemStorage.generateUserId, hnurse]

/-- C9: for any valid-role input, createUser followed by getUser on the id
of the returned record gives back exactly the created record. -/
theorem createUser_getUser_roundtrip (s : MemState) (iu : InsertUser)
    (h : iu.role = strAdmin ∨ iu.role = strDoctor ∨
      iu.role = strReceptionist ∨ iu.role = strPatient) :
    ∃ u s', MemStorage.createUser iu s = .ok (u, s') ∧
      MemStorage.getUser u.id s' = some u := by
  obtain ⟨pre, hr⟩ : ∃ pre, rolePre iu.role = some pre := by
    rcases h with h | h | h | h <;> rw [h] <;> exact ⟨_, rfl⟩
  simp only [MemStorage.createUser, generateUserId_valid s iu.role pre hr]
  refine ⟨_, _, rfl, ?_⟩
  simp only [MemStorage.getUser]
  exact mget_mset_self _ _ _

/-- C7: every get-by-id and update-by-id miss returns absence rather than
an error, and a missed update leaves the state exactly as it was. -/
theorem get_update_miss (s : MemState) (i : Str) (n : Nat) (pu : UserPatch)
    (pd : DoctorPatch) (pp : PatientPatch) (pa : ApptPatch) :
    (mget s.users i = none →
      MemStorage.getUser i s = none ∧
      MemStorage.updateUser i pu s = (none, s)) ∧
    (mget s.doctors i = none →
      MemStorage.getDoctor i s = none ∧
      MemStorage.updateDoctor i pd s = (none, s)) ∧
    (mget s.patients i = none →
      MemStorage.getPatient i s = none ∧
      MemStorage.updatePatient i pp s = (none, s)) ∧
    (mget s.appointments n = none →
      MemStorage.getAppointment n s = none ∧
      MemStorage.updateAppointment n pa s = (none, s)) := by
  refine ⟨fun h => ⟨h, ?_⟩, fun h => ⟨h, ?_⟩, fun h => ⟨h, ?_⟩,
    fun h => ⟨h, ?_⟩⟩ <;>
    simp only [MemStorage.updateUser, MemStorage.updateDoctor,
      MemStorage.updatePatient, MemStorage.updateAppointment, h]

/-- C7 witness: on a populated state, a missing id misses every
collection without an exception and without touching the state. -/
theorem get_update_miss_witness :
    (mget memWF.users "XYZ".data = none →
      MemStorage.getUser "XYZ".data memWF = none ∧
      MemStorage.updateUser "XYZ".data {} memWF = (none, memWF)) ∧
    (mget memWF.doctors "XYZ".data = none →
      MemStorage.getDoctor "XYZ".data memWF = none ∧
      MemStorage.updateDoctor "XYZ".data {} memWF = (none, memWF)) ∧
    (mget memWF.patients "XYZ".data = none →
      MemStorage.getPatient "XYZ".data memWF = none ∧
      MemStorage.updatePatient "XYZ".data {} memWF = (none, memWF)) ∧
    (mget memWF.appointments 99 = none →
      MemStorage.getAppointment 99 memWF = none ∧
      MemStorage.updateAppointment 99 {} memWF = (none, memWF)) :=
  get_update_miss memWF "XYZ".data 99 {} {} {} {}

/-- C9 witness: creating an admin user on the populated state and reading
it back by its id. -/
theorem createUser_getUser_roundtrip_witness :
    (iuSample.role = strAdmin ∨ iuSample.role = strDoctor ∨
      iuSample.role = strReceptionist ∨ iuSample.role = strPatient) ∧
    (∃ u s', MemStorage.createUser iuSample memWF = .ok (u, s') ∧
      MemStorage.getUser u.id s' = some u) :=
  ⟨Or.inl rfl, createUser_getUser_roundtrip memWF iuSample (Or.inl rfl)⟩

/-- C5: updating an existing appointment with status "cancelled" stores
and returns a record that is cancelled and agrees with the old one on
every other field, and no other entry of the state changes. -/
theorem updateAppointment_cancel (s : MemState) (aid : Nat) (a : Appointment)
    (h : mget s.appointments aid = some a) :
    ∃ a', (MemStorage.updateAppointment aid cancelPatch s).1 = some a' ∧
      mget (MemStorage.updateAppointment aid cancelPatch s).2.appointments
        aid = some a' ∧
      a'.status = strCancelled ∧ a'.id = a.id ∧
      a'.patientId = a.patientId ∧ a'.doctorId = a.doctorId ∧
      a'.date = a.date ∧ a'.time = a.time ∧ a'.duration = a.duration ∧
      a'.reason = a.reason ∧ a'.type = a.type ∧ a'.notes = a.notes ∧
      a'.createdAt = a.createdAt ∧
      (MemStorage.updateAppointment aid cancelPatch s).2.users = s.users ∧
      (MemStorage.updateAppointment aid cancelPatch s).2.doctors = s.doctors ∧
      (MemStorage.updateAppointment aid cancelPatch s).2.patients =
        s.patients ∧
      (MemStorage.updateAppointment aid cancelPatch s).2.specializations =
        s.specializations ∧
      (∀ k, k ≠ aid →
        mget (MemStorage.updateAppointment aid cancelPatch s).2.appointments
          k = mget s.appointments k) := by
  refine ⟨mergeAppointment a cancelPatch, ?_⟩
  have hupd : MemStorage.updateAppointment aid cancelPatch s =
      (some (mergeAppointment a cancelPatch),
       MemState.mk s.users s.doctors s.patients
         (mset s.appointments aid (mergeAppointment a cancelPatch))
         s.specializations s.currentAppointmentId s.currentSpecializationId
         s.idCounters s.now) := by
    simp only [MemStorage.updateAppointment, h]
  rw [hupd]
  exact ⟨rfl, mget_mset_self _ _ _, rfl, rfl, rfl, rfl, rfl, rfl, rfl, rfl,
    rfl, rfl, rfl, rfl, rfl, rfl, rfl, fun k hk => mget_mset_ne _ _ _ _ hk⟩

/-- C5 witness: cancelling the stored appointment 1 of the populated
state. -/
theorem updateAppointment_cancel_witness :
    mget memWF.appointments 1 = some apptOk ∧
    (∃ a', (MemStorage.updateAppointment 1 cancelPatch memWF).1 = some a' ∧
      mget (MemStorage.updateAppointment 1 cancelPatch memWF).2.appointments
        1 = some a' ∧
      a'.status = strCancelled ∧ a'.id = apptOk.id ∧
      a'.patientId = apptOk.patientId ∧ a'.doctorId = apptOk.doctorId ∧
      a'.date = apptOk.date ∧ a'.time = apptOk.time ∧
      a'.duration = apptOk.duration ∧
      a'.reason = apptOk.reason ∧ a'.type = apptOk.type ∧
      a'.notes = apptOk.notes ∧
      a'.createdAt = apptOk.createdAt ∧
      (MemStorage.updateAppointment 1 cancelPatch memWF).2.users =
        memWF.users ∧
      (MemStorage.updateAppointment 1 cancelPatch memWF).2.doctors =
        memWF.doctors ∧
      (MemStorage.updateAppointment 1 cancelPatch memWF).2.patients =
        memWF.patients ∧
      (MemStorage.updateAppointment 1 cancelPatch memWF).2.specializations =
        memWF.specializations ∧
      (∀ k, k ≠ 1 →
        mget (MemStorage.updateAppointment 1 cancelPatch memWF).2.appointments
          k = mget memWF.appointments k)) :=
  ⟨by decide, updateAppointment_cancel memWF 1 apptOk (by decide)⟩

/-- C3: authentication succeeds exactly when the user exists and the
stored password equals the supplied one; the returned projection carries
the stored user, has doctorInfo assigned exactly for role doctor, and
patientInfo assigned exactly for role patient. -/
theorem authenticateUser_spec (s : MemState) (uid pw : Str) :
    ((MemStorage.authenticateUser uid pw s).isSome ↔
      ∃ u, mget s.users uid = some u ∧ u.password = pw) ∧
    (∀ r, MemStorage.authenticateUser uid pw s = some r →
      mget s.users uid = some r.user ∧ r.user.password = pw ∧
      (r.doctorInfo.isSome ↔ r.user.role = strDoctor) ∧
      (r.patientInfo.isSome ↔ r.user.role = strPatient)) := by
  cases hu : mget s.users uid with
  | none => simp [MemStorage.authenticateUser, hu]
  | some u =>
      have hauth : MemStorage.authenticateUser uid pw s =
          (if u.password ≠ pw then none
           else if u.role = strDoctor then
             some ⟨u, some (MemStorage.getDoctor uid s), none⟩
           else if u.role = strPatient then
             some ⟨u, none, some (MemStorage.getPatient uid s)⟩
           else some ⟨u, none, none⟩) := by
        simp only [MemStorage.authenticateUser, hu]
      by_cases hpw : u.password = pw
      · rw [hauth, if_neg (by simp [hpw])]
        by_cases hd : u.role = strDoctor
        · rw [if_pos hd]
          refine ⟨iff_of_true (by simp) ⟨u, rfl, hpw⟩, ?_⟩
          intro r hr
          injection hr with hr'
          subst hr'
          refine ⟨rfl, hpw, iff_of_true (by simp) hd, ?_⟩
          refine iff_of_false (by simp) ?_
          rw [hd]
          decide
        · rw [if_neg hd]
          by_cases hp : u.role = strPatient
          · rw [if_pos hp]
            refine ⟨iff_of_true (by simp) ⟨u, rfl, hpw⟩, ?_⟩
            intro r hr
            injection hr with hr'
            subst hr'
            exact ⟨rfl, hpw, iff_of_false (by simp) hd,
              iff_of_true (by simp) hp⟩
          · rw [if_neg hp]
            refine ⟨iff_of_true (by simp) ⟨u, rfl, hpw⟩, ?_⟩
            intro r hr
            injection hr with hr'
            subst hr'
            exact ⟨rfl, hpw, iff_of_false (by simp) hd,
              iff_of_false (by simp) hp⟩
      · rw [hauth, if_pos hpw]
        constructor
        · refine iff_of_false (by simp) ?_
          rintro ⟨u', h1, h2⟩
          injection h1 with h3
          exact hpw (h3 ▸ h2)
        · intro r hr
          exact absurd hr (by simp)

/-- C3 witness: the stored doctor authenticates with the right password
and the projection facts hold on it. -/
theorem authenticateUser_spec_witness :
    ((MemStorage.authenticateUser "DOC0001".data "doctor123".data
        memWF).isSome ↔
      ∃ u, mget memWF.users "DOC0001".data = some u ∧
        u.password = "doctor123".data) ∧
    (∀ r, MemStorage.authenticateUser "DOC0001".data "doctor123".data
        memWF = some r →
      mget memWF.users "DOC0001".data = some r.user ∧
      r.user.password = "doctor123".data ∧
      (r.doctorInfo.isSome ↔ r.user.role = strDoctor) ∧
      (r.patientInfo.isSome ↔ r.user.role = strPatient)) :=
  authenticateUser_spec memWF "DOC0001".data "doctor123".data

/-- C10: a second createDoctor (createPatient) with the same userId
replaces the stored profile in place: the new record is stored under that
key, the collection size is unchanged, and every other key is
untouched. -/
theorem create_same_userId_overwrites (s : MemState)
    (d1 d2 : InsertDoctor) (p1 p2 : InsertPatient)
    (hd : d1.userId = d2.userId) (hp : p1.userId = p2.userId) :
    (mget ((MemStorage.createDoctor d2
        (MemStorage.createDoctor d1 s).2).2).doctors d2.userId =
      some (MemStorage.createDoctor d2
        (MemStorage.createDoctor d1 s).2).1 ∧
     ((MemStorage.createDoctor d2
        (MemStorage.createDoctor d1 s).2).2).doctors.length =
      ((MemStorage.createDoctor d1 s).2).doctors.length ∧
     (∀ k, k ≠ d2.userId →
       mget ((MemStorage.createDoctor d2
          (MemStorage.createDoctor d1 s).2).2).doctors k =
        mget ((MemStorage.createDoctor d1 s).2).doctors k)) ∧
    (mget ((MemStorage.createPatient p2
        (MemStorage.createPatient p1 s).2).2).patients p2.userId =
      some (MemStorage.createPatient p2
        (MemStorage.createPatient p1 s).2).1 ∧
     ((MemStorage.createPatient p2
        (MemStorage.createPatient p1 s).2).2).patients.length =
      ((MemStorage.createPatient p1 s).2).patients.length ∧
     (∀ k, k ≠ p2.userId →
       mget ((MemStorage.createPatient p2
          (MemStorage.createPatient p1 s).2).2).patients k =
        mget ((MemStorage.createPatient p1 s).2).patients k)) := by
  refine ⟨⟨?_, ?_, ?_⟩, ⟨?_, ?_, ?_⟩⟩
  · exact mget_mset_self _ _ _
  · apply length_mset_of_isSome
    simp only [MemStorage.createDoctor]
    rw [← hd]
    simp [mget_mset_self]
  · exact fun k hk => mget_mset_ne _ _ _ _ hk
  · exact mget_mset_self _ _ _
  · apply length_mset_of_isSome
    simp only [MemStorage.createPatient]
    rw [← hp]
    simp [mget_mset_self]
  · exact fun k hk => mget_mset_ne _ _ _ _ hk

/-- C10 witness: re-creating the doctor and patient profiles for
DOC0001 and PAT0001 on the populated state. -/
theorem create_same_userId_overwrites_witness :
    idrSample.userId = idrSample2.userId ∧
    ipSample.userId = ipSample2.userId ∧
    ((mget ((MemStorage.createDoctor idrSample2
        (MemStorage.createDoctor idrSample memWF).2).2).doctors
        idrSample2.userId =
      some (MemStorage.createDoctor idrSample2
        (MemStorage.createDoctor idrSample memWF).2).1 ∧
     ((MemStorage.createDoctor idrSample2
        (MemStorage.createDoctor idrSample memWF).2).2).doctors.length =
      ((MemStorage.createDoctor idrSample memWF).2).doctors.length ∧
     (∀ k, k ≠ idrSample2.userId →
       mget ((MemStorage.createDoctor idrSample2
          (MemStorage.createDoctor idrSample memWF).2).2).doctors k =
        mget ((MemStorage.createDoctor idrSample memWF).2).doctors k)) ∧
    (mget ((MemStorage.createPatient ipSample2
        (MemStorage.createPatient ipSample memWF).2).2).patients
        ipSample2.userId =
      some (MemStorage.createPatient ipSample2
        (MemStorage.createPatient ipSample memWF).2).1 ∧
     ((MemStorage.createPatient ipSample2
        (MemStorage.createPatient ipSample memWF).2).2).patients.length =
      ((MemStorage.createPatient ipSample memWF).2).patients.length ∧
     (∀ k, k ≠ ipSample2.userId →
       mget ((MemStorage.createPatient ipSample2
          (MemStorage.createPatient ipSample memWF).2).2).patients k =
        mget ((MemStorage.createPatient ipSample memWF).2).patients k))) :=
  ⟨rfl, rfl,
    create_same_userId_overwrites memWF idrSample idrSample2 ipSample
      ipSample2 rfl rfl⟩

/-- C8: no repository operation removes a stored record: for every
operation of the interface and every collection, any key present before
the operation is still present after it. -/
theorem no_record_removal (op : Op) (s : MemState) :
    (∀ k, (mget s.users k).isSome →
      (mget (Op.apply op s).users k).isSome) ∧
    (∀ k, (mget s.doctors k).isSome →
      (mget (Op.apply op s).doctors k).isSome) ∧
    (∀ k, (mget s.patients k).isSome →
      (mget (Op.apply op s).patients k).isSome) ∧
    (∀ k, (mget s.appointments k).isSome →
      (mget (Op.apply op s).appointments k).isSome) ∧
    (∀ k, (mget s.specializations k).isSome →
      (mget (Op.apply op s).specializations k).isSome) := by
  cases op with
  | createUser iu =>
      cases hr : prefixLookup iu.role with
      | none =>
          simp only [Op.apply, MemStorage.createUser,
            MemStorage.generateUserId, hr]
          exact ⟨fun _ h => h, fun _ h => h, fun _ h => h, fun _ h => h,
          fun _ h => h⟩
      | some pv =>
          simp only [Op.apply, MemStorage.createUser,
            MemStorage.generateUserId, hr]
          by_cases ht : pv.truthy = false
          · rw [if_pos ht]
            exact ⟨fun _ h => h, fun _ h => h, fun _ h => h, fun _ h => h,
            fun _ h => h⟩
          · rw [if_neg ht]
            exact ⟨fun k h => mget_mset_isSome _ _ _ _ h, fun _ h => h,
              fun _ h => h, fun _ h => h, fun _ h => h⟩
  | updateUser i p =>
      cases hm : mget s.users i with
      | none =>
          simp only [Op.apply, MemStorage.updateUser, hm]
          exact ⟨fun _ h => h, fun _ h => h, fun _ h => h, fun _ h => h,
          fun _ h => h⟩
      | some u =>
          simp only [Op.apply, MemStorage.updateUser, hm]
          exact ⟨fun k h => mget_mset_isSome _ _ _ _ h, fun _ h => h,
            fun _ h => h, fun _ h => h, fun _ h => h⟩
  | createDoctor idr =>
      simp only [Op.apply, MemStorage.createDoctor]
      exact ⟨fun _ h => h, fun k h => mget_mset_isSome _ _ _ _ h,
        fun _ h => h, fun _ h => h, fun _ h => h⟩
  | updateDoctor i p =>
      cases hm : mget s.doctors i with
      | none =>
          simp only [Op.apply, MemStorage.updateDoctor, hm]
          exact ⟨fun _ h => h, fun _ h => h, fun _ h => h, fun _ h => h,
          fun _ h => h⟩
      | some d =>
          simp only [Op.apply, MemStorage.updateDoctor, hm]
          exact ⟨fun _ h => h, fun k h => mget_mset_isSome _ _ _ _ h,
            fun _ h => h, fun _ h => h, fun _ h => h⟩
  | createPatient ip =>
      simp only [Op.apply, MemStorage.createPatient]
      exact ⟨fun _ h => h, fun _ h => h,
        fun k h => mget_mset_isSome _ _ _ _ h, fun _ h => h, fun _ h => h⟩
  | updatePatient i p =>
      cases hm : mget s.patients i with
      | none =>
          simp only [Op.apply, MemStorage.updatePatient, hm]
          exact ⟨fun _ h => h, fun _ h => h, fun _ h => h, fun _ h => h,
          fun _ h => h⟩
      | some q =>
          simp only [Op.apply, MemStorage.updatePatient, hm]
          exact ⟨fun _ h => h, fun _ h => h,
            fun k h => mget_mset_isSome _ _ _ _ h, fun _ h => h,
            fun _ h => h⟩
  | createAppointment ia =>
      simp only [Op.apply, MemStorage.createAppointment]
      exact ⟨fun _ h => h, fun _ h => h, fun _ h => h,
        fun k h => mget_mset_isSome _ _ _ _ h, fun _ h => h⟩
  | updateAppointment i p =>
      cases hm : mget s.appointments i with
      | none =>
          simp only [Op.apply, MemStorage.updateAppointment, hm]
          exact ⟨fun _ h => h, fun _ h => h, fun _ h => h, fun _ h => h,
          fun _ h => h⟩
      | some a =>
          simp only [Op.apply, MemStorage.updateAppointment, hm]
          exact ⟨fun _ h => h, fun _ h => h, fun _ h => h,
            fun k h => mget_mset_isSome _ _ _ _ h, fun _ h => h⟩
  | createSpecialization isp =>
      simp only [Op.apply, MemStorage.createSpecialization]
      exact ⟨fun _ h => h, fun _ h => h, fun _ h => h, fun _ h => h,
        fun k h => mget_mset_isSome _ _ _ _ h⟩
  | generateUserId r =>
      cases hr : prefixLookup r with
      | none =>
          simp only [Op.apply, MemStorage.generateUserId, hr]
          exact ⟨fun _ h => h, fun _ h => h, fun _ h => h, fun _ h => h,
          fun _ h => h⟩
      | some pv =>
          simp only [Op.apply, MemStorage.generateUserId, hr]
          by_cases ht : pv.truthy = false
          · rw [if_pos ht]
            exact ⟨fun _ h => h, fun _ h => h, fun _ h => h, fun _ h => h,
            fun _ h => h⟩
          · rw [if_neg ht]
            exact ⟨fun _ h => h, fun _ h => h, fun _ h => h, fun _ h => h,
            fun _ h => h⟩
  | getUser i => exact ⟨fun _ h => h, fun _ h => h, fun _ h => h, fun _ h => h,
          fun _ h => h⟩
  | getUserByEmail e => exact ⟨fun _ h => h, fun _ h => h, fun _ h => h, fun _ h => h,
          fun _ h => h⟩
  | getDoctor i => exact ⟨fun _ h => h, fun _ h => h, fun _ h => h, fun _ h => h,
          fun _ h => h⟩
  | getDoctors => exact ⟨fun _ h => h, fun _ h => h, fun _ h => h, fun _ h => h,
          fun _ h => h⟩
  | getPatient i => exact ⟨fun _ h => h, fun _ h => h, fun _ h => h, fun _ h => h,
          fun _ h => h⟩
  | getPatients => exact ⟨fun _ h => h, fun _ h => h, fun _ h => h, fun _ h => h,
          fun _ h => h⟩
  | getAppointment i => exact ⟨fun _ h => h, fun _ h => h, fun _ h => h, fun _ h => h,
          fun _ h => h⟩
  | getAppointments => exact ⟨fun _ h => h, fun _ h => h, fun _ h => h, fun _ h => h,
          fun _ h => h⟩
  | getAppointmentsByPatient i => exact ⟨fun _ h => h, fun _ h => h, fun _ h => h, fun _ h => h,
          fun _ h => h⟩
  | getAppointmentsByDoctor i => exact ⟨fun _ h => h, fun _ h => h, fun _ h => h, fun _ h => h,
          fun _ h => h⟩
  | getSpecializations => exact ⟨fun _ h => h, fun _ h => h, fun _ h => h, fun _ h => h,
          fun _ h => h⟩
  | authenticateUser i w => exact ⟨fun _ h => h, fun _ h => h, fun _ h => h, fun _ h => h,
          fun _ h => h⟩

/-- C8 witness: the update-miss operation on the populated state keeps the
stored admin user present. -/
theorem no_record_removal_witness :
    (mget memWF.users "ADM0001".data).isSome ∧
    (mget (Op.apply (Op.updateUser "XYZ".data {}) memWF).users
      "ADM0001".data).isSome :=
  ⟨by decide,
    (no_record_removal (Op.updateUser "XYZ".data {}) memWF).1
      "ADM0001".data (by decide)⟩

theorem mget_mem {κ α : Type} [DecidableEq κ] (m : List (κ × α)) (k : κ)
    (v : α) (h : mget m k = some v) : (k, v) ∈ m := by
  induction m with
  | nil => simp [mget] at h
  | cons hd tl ih =>
      obtain ⟨k0, v0⟩ := hd
      by_cases h0 : k0 = k
      · subst h0
        simp [mget] at h
        subst h
        exact List.mem_cons_self _ _
      · simp [mget, h0] at h
        exact List.mem_cons_of_mem _ (ih h)

/-- Joined doctor rows contribute no entry with user id U when every
doctor in the list is keyed by its own userId and none is keyed U. -/
theorem countP_join_zero (users : List (Str × User)) (U : Str)
    (hu : ∀ k u, mget users k = some u → u.id = k)
    (l : List (Str × Doctor))
    (hl : ∀ k d, (k, d) ∈ l → d.userId = k ∧ k ≠ U) :
    List.countP (fun e => decide (e.user.id = U))
      ((mvalues l).filterMap (fun d =>
        (mget users d.userId).map (fun u => DoctorWithUser.mk d u))) = 0 := by
  rw [List.countP_eq_zero]
  intro e he
  rw [List.mem_filterMap] at he
  obtain ⟨d, hd, hmap⟩ := he
  rw [mvalues, List.mem_map] at hd
  obtain ⟨⟨k, d0⟩, hmem, hsnd⟩ := hd
  cases hsnd
  obtain ⟨u, huu, hmape⟩ :
      ∃ u, mget users d0.userId = some u ∧ DoctorWithUser.mk d0 u = e := by
    cases hh : mget users d0.userId with
    | none => rw [hh] at hmap; simp at hmap
    | some u =>
        rw [hh] at hmap
        exact ⟨u, rfl, by simpa using hmap⟩
  obtain ⟨hdk, hkU⟩ := hl k d0 hmem
  have hid : u.id = d0.userId := hu _ _ huu
  subst hmape
  simp only [decide_eq_true_eq]
  show ¬(u.id = U)
  rw [hid, hdk]
  exact hkU

/-- Count of joined entries with user id U after storing a new doctor
keyed U: exactly one when user U exists, none otherwise. -/
theorem getDoctors_count_core (users : List (Str × User)) (U : Str)
    (dnew : Doctor) (hdnew : dnew.userId = U)
    (hu : ∀ k u, mget users k = some u → u.id = k) :
    ∀ m : List (Str × Doctor), (m.map Prod.fst).Nodup →
      (∀ k d, (k, d) ∈ m → d.userId = k) →
      List.countP (fun e => decide (e.user.id = U))
        ((mvalues (mset m U dnew)).filterMap (fun d =>
          (mget users d.userId).map (fun u => DoctorWithUser.mk d u))) =
        if (mget users U).isSome then 1 else 0 := by
  intro m
  induction m with
  | nil =>
      intro _ _
      cases h : mget users U with
      | none =>
          simp [mset, mvalues, List.filterMap_cons, hdnew, h]
      | some u =>
          have hid : u.id = U := hu _ _ h
          simp [mset, mvalues, List.filterMap_cons, hdnew, h,
            List.countP_cons, hid]
  | cons hd tl ih =>
      obtain ⟨k, d⟩ := hd
      intro hnd hm
      rw [List.map_cons, List.nodup_cons] at hnd
      obtain ⟨hknotin, hndtl⟩ := hnd
      have hmtl : ∀ k0 d0, (k0, d0) ∈ tl → d0.userId = k0 :=
        fun k0 d0 hmem => hm k0 d0 (List.mem_cons_of_mem _ hmem)
      by_cases hkU : k = U
      · subst hkU
        have hms : mset ((k, d) :: tl) k dnew = (k, dnew) :: tl := by
          simp [mset]
        rw [hms]
        have hltl : ∀ k0 d0, (k0, d0) ∈ tl → d0.userId = k0 ∧ k0 ≠ k := by
          intro k0 d0 hmem
          refine ⟨hmtl k0 d0 hmem, ?_⟩
          intro hcontra
          subst hcontra
          exact hknotin (List.mem_map.mpr ⟨(k0, d0), hmem, rfl⟩)
        have hmv : mvalues ((k, dnew) :: tl) = dnew :: mvalues tl := rfl
        cases h : mget users k with
        | none =>
            rw [hmv, List.filterMap_cons_none
              (f := fun d => Option.map (fun u => DoctorWithUser.mk d u) (mget users d.userId)) (a := dnew)
              (show Option.map (fun u => DoctorWithUser.mk dnew u)
                (mget users dnew.userId) = none by rw [hdnew, h]; rfl)]
            rw [countP_join_zero users k hu tl hltl]
            rfl
        | some u =>
            have hid : u.id = k := hu _ _ h
            rw [hmv, List.filterMap_cons_some
              (f := fun d => Option.map (fun u => DoctorWithUser.mk d u) (mget users d.userId)) (a := dnew)
              (show Option.map (fun u => DoctorWithUser.mk dnew u)
                (mget users dnew.userId) = some (DoctorWithUser.mk dnew u) by
                  rw [hdnew, h, Option.map_some'])]
            rw [List.countP_cons, countP_join_zero users k hu tl hltl]
            simp [hid]
      · have hms : mset ((k, d) :: tl) U dnew = (k, d) :: mset tl U dnew := by
          simp [mset, hkU]
        rw [hms]
        have hdk : d.userId = k := hm k d (List.mem_cons_self _ _)
        have ihx := ih hndtl hmtl
        have hmv : mvalues ((k, d) :: mset tl U dnew) =
            d :: mvalues (mset tl U dnew) := rfl
        cases hh : mget users d.userId with
        | none =>
            rw [hmv, List.filterMap_cons_none
              (f := fun x => Option.map (fun u => DoctorWithUser.mk x u) (mget users x.userId)) (a := d)
              (show Option.map (fun u => DoctorWithUser.mk d u)
                (mget users d.userId) = none by rw [hh]; rfl)]
            exact ihx
        | some u =>
            have hid : u.id = d.userId := hu _ _ hh
            rw [hmv, List.filterMap_cons_some
              (f := fun x => Option.map (fun u => DoctorWithUser.mk x u) (mget users x.userId)) (a := d)
              (show Option.map (fun u => DoctorWithUser.mk d u)
                (mget users d.userId) = some (DoctorWithUser.mk d u) by
                  rw [hh, Option.map_some'])]
            rw [List.countP_cons, ihx]
            have hna : ¬(u.id = U) := by
              rw [hid, hdk]
              exact hkU
            simp [hna]

/-- C6: after createDoctor with userId U on a well-keyed state, the joined
doctor listing has exactly one entry with user id U when user U exists;
when user U is absent the doctor record is still stored but the listing
has no such entry. -/
theorem createDoctor_getDoctors_policy (s : MemState) (idr : InsertDoctor)
    (hnd : (s.doctors.map Prod.fst).Nodup)
    (hdk : ∀ p ∈ s.doctors, (Prod.snd p).userId = Prod.fst p)
    (hu : ∀ p ∈ s.users, (Prod.snd p).id = Prod.fst p) :
    ((mget s.users idr.userId).isSome →
      List.countP (fun e => decide (e.user.id = idr.userId))
        (MemStorage.getDoctors (MemStorage.createDoctor idr s).2) = 1) ∧
    (mget s.users idr.userId = none →
      mget ((MemStorage.createDoctor idr s).2).doctors idr.userId =
        some (MemStorage.createDoctor idr s).1 ∧
      List.countP (fun e => decide (e.user.id = idr.userId))
        (MemStorage.getDoctors (MemStorage.createDoctor idr s).2) = 0) := by
  have hu' : ∀ k u, mget s.users k = some u → u.id = k :=
    fun k u h => hu (k, u) (mget_mem _ _ _ h)
  have hdk' : ∀ k d, (k, d) ∈ s.doctors → d.userId = k :=
    fun k d h => hdk (k, d) h
  have hcore := getDoctors_count_core s.users idr.userId
    (MemStorage.createDoctor idr s).1 rfl hu' s.doctors hnd hdk'
  have hgd : MemStorage.getDoctors (MemStorage.createDoctor idr s).2 =
      (mvalues (mset s.doctors idr.userId
        (MemStorage.createDoctor idr s).1)).filterMap (fun d =>
          (mget s.users d.userId).map (fun u => DoctorWithUser.mk d u)) := by
    rfl
  constructor
  · intro h
    rw [hgd, hcore, if_pos h]
  · intro h
    refine ⟨mget_mset_self _ _ _, ?_⟩
    rw [hgd, hcore, if_neg (by rw [h]; exact Bool.false_ne_true)]

/-- C6 witness: adding a doctor profile for the existing user DOC0001 on
the populated state yields exactly one joined entry for it. -/
theorem createDoctor_getDoctors_policy_witness :
    (memWF.doctors.map Prod.fst).Nodup ∧
    (∀ p ∈ memWF.doctors, (Prod.snd p).userId = Prod.fst p) ∧
    (∀ p ∈ memWF.users, (Prod.snd p).id = Prod.fst p) ∧
    (mget memWF.users idrSample.userId).isSome ∧
    List.countP (fun e => decide (e.user.id = idrSample.userId))
      (MemStorage.getDoctors (MemStorage.createDoctor idrSample memWF).2) =
      1 :=
  ⟨by decide, by decide, by decide, by decide,
    (createDoctor_getDoctors_policy memWF idrSample (by decide) (by decide)
      (by decide)).1 (by decide)⟩

/-- Membership in the in-memory appointment listing, characterised by the
three lookups the loop performs. -/
theorem mem_getAppointments_iff (s : MemState) (e : AppointmentWithDetails) :
    e ∈ MemStorage.getAppointments s ↔
      ∃ x ∈ mvalues s.appointments, ∃ p d du,
        mget s.users x.patientId = some p ∧
        mget s.doctors x.doctorId = some d ∧
        mget s.users d.userId = some du ∧
        e = AppointmentWithDetails.mk x p (ApptDoctor.mk du d) := by
  unfold MemStorage.getAppointments
  rw [List.mem_filterMap]
  constructor
  · rintro ⟨x, hx, hfa⟩
    simp only [MemStorage.getUser, MemStorage.getDoctor] at hfa
    cases hp : mget s.users x.patientId with
    | none =>
        rw [hp] at hfa
        exact Option.noConfusion hfa
    | some p =>
        cases hd : mget s.doctors x.doctorId with
        | none =>
            rw [hp, hd] at hfa
            exact Option.noConfusion hfa
        | some d =>
            simp only [hp, hd] at hfa
            cases hdu : mget s.users d.userId with
            | none =>
                rw [hdu] at hfa
                exact Option.noConfusion hfa
            | some du =>
                simp only [hdu] at hfa
                refine ⟨x, hx, p, d, du, hp, hd, hdu, ?_⟩
                injection hfa with hfa'
                exact hfa'.symm
  · rintro ⟨x, hx, p, d, du, hp, hd, hdu, he⟩
    refine ⟨x, hx, ?_⟩
    simp only [MemStorage.getUser, MemStorage.getDoctor, hp, hd, hdu]
    rw [he]

/-- Membership in the durable appointment listing, characterised by the
join conditions and the doctor-user point lookup. -/
theorem mem_getAppointmentsDb_iff (t : DbState)
    (e : AppointmentWithDetails) :
    e ∈ DatabaseStorage.getAppointments t ↔
      ∃ x ∈ t.appointments, ∃ p ∈ t.patients, ∃ pu ∈ t.users,
        ∃ d ∈ t.doctors, ∃ du,
        p.id = x.patientId ∧ d.id = x.doctorId ∧ pu.id = p.userId ∧
        t.users.find? (fun u => decide (u.id = d.userId)) = some du ∧
        e = AppointmentWithDetails.mk x pu (ApptDoctor.mk du d) := by
  unfold DatabaseStorage.getAppointments
  rw [List.mem_filterMap]
  constructor
  · rintro ⟨row, hrow, hg⟩
    simp only [List.mem_flatMap, List.mem_map, List.mem_filter,
      decide_eq_true_eq] at hrow
    obtain ⟨x, hx, p, ⟨hpmem, hpid⟩, d, ⟨hdmem, hdid⟩, pu, ⟨hpu, hpuid⟩,
      hroweq⟩ := hrow
    subst hroweq
    cases hfind : t.users.find? (fun u => decide (u.id = d.userId)) with
    | none =>
        rw [hfind] at hg
        exact Option.noConfusion hg
    | some du =>
        rw [hfind] at hg
        injection hg with hg'
        exact ⟨x, hx, p, hpmem, pu, hpu, d, hdmem, du, hpid, hdid, hpuid,
          hfind, hg'.symm⟩
  · rintro ⟨x, hx, p, hpmem, pu, hpu, d, hdmem, du, hpid, hdid, hpuid,
      hfind, he⟩
    refine ⟨(x, p, pu, d), ?_, ?_⟩
    · simp only [List.mem_flatMap, List.mem_map, List.mem_filter,
        decide_eq_true_eq]
      exact ⟨x, hx, p, ⟨hpmem, hpid⟩, d, ⟨hdmem, hdid⟩, pu, ⟨hpu, hpuid⟩,
        rfl⟩
    · rw [hfind, he]
      rfl

/-- C2 (amended): the in-memory listing keeps a stored appointment exactly
when a User exists at its patientId, its Doctor exists, and that Doctor's
owning User exists (the Patient record itself is never consulted); the
durable listing additionally requires the Patient record at patientId and
that record's owning User.  Both listings are total functions. -/
theorem getAppointments_link_policy (s : MemState) (t : DbState)
    (a : Appointment) :
    ((∃ e ∈ MemStorage.getAppointments s, e.appt = a) ↔
      (a ∈ mvalues s.appointments ∧ (mget s.users a.patientId).isSome ∧
       ∃ d, mget s.doctors a.doctorId = some d ∧
         (mget s.users d.userId).isSome)) ∧
    ((∃ e ∈ DatabaseStorage.getAppointments t, e.appt = a) ↔
      (a ∈ t.appointments ∧
       (∃ p ∈ t.patients, p.id = a.patientId ∧
         ∃ u ∈ t.users, u.id = p.userId) ∧
       (∃ d ∈ t.doctors, d.id = a.doctorId ∧
         ∃ u ∈ t.users, u.id = d.userId))) := by
  constructor
  · constructor
    · rintro ⟨e, he, heq⟩
      rw [mem_getAppointments_iff] at he
      obtain ⟨x, hx, p, d, du, hp, hd, hdu, hee⟩ := he
      have hxa : x = a := by rw [hee] at heq; exact heq
      subst hxa
      exact ⟨hx, by rw [hp]; rfl, d, hd, by rw [hdu]; rfl⟩
    · rintro ⟨ha, hps, d, hd, hdus⟩
      obtain ⟨p, hp⟩ := Option.isSome_iff_exists.mp hps
      obtain ⟨du, hdu⟩ := Option.isSome_iff_exists.mp hdus
      exact ⟨AppointmentWithDetails.mk a p (ApptDoctor.mk du d),
        (mem_getAppointments_iff s _).mpr
          ⟨a, ha, p, d, du, hp, hd, hdu, rfl⟩, rfl⟩
  · constructor
    · rintro ⟨e, he, heq⟩
      rw [mem_getAppointmentsDb_iff] at he
      obtain ⟨x, hx, p, hpmem, pu, hpu, d, hdmem, du, hpid, hdid, hpuid,
        hfind, hee⟩ := he
      have hxa : x = a := by rw [hee] at heq; exact heq
      subst hxa
      refine ⟨hx, ⟨p, hpmem, hpid, pu, hpu, hpuid⟩,
        ⟨d, hdmem, hdid, du, List.mem_of_find?_eq_some hfind, ?_⟩⟩
      have := List.find?_some hfind
      simpa using this
    · rintro ⟨ha, ⟨p, hpmem, hpid, pu, hpu, hpuid⟩,
        ⟨d, hdmem, hdid, u2, hu2, hu2id⟩⟩
      have hfs : (t.users.find?
          (fun u => decide (u.id = d.userId))).isSome := by
        rw [List.find?_isSome]
        exact ⟨u2, hu2, by simpa using hu2id⟩
      obtain ⟨du, hfind⟩ := Option.isSome_iff_exists.mp hfs
      exact ⟨AppointmentWithDetails.mk a pu (ApptDoctor.mk du d),
        (mem_getAppointmentsDb_iff t _).mpr
          ⟨a, ha, p, hpmem, pu, hpu, d, hdmem, du, hpid, hdid, hpuid,
            hfind, rfl⟩, rfl⟩

/-- C2 counterexample: in `memCex` the appointment's Patient record
exists, its Doctor exists and the Doctor's owning User exists, yet the
in-memory listing is empty, because the code looks up a User (not a
Patient) at patientId. -/
theorem getAppointments_patient_record_cex :
    (mget memCex.patients apptOk.patientId).isSome ∧
    mget memCex.doctors apptOk.doctorId = some dDoc ∧
    (mget memCex.users dDoc.userId).isSome ∧
    apptOk ∈ mvalues memCex.appointments ∧
    MemStorage.getAppointments memCex = [] := by
  decide

theorem jsOrNat_some_succ (x : Nat) : jsOrNat (some (x + 1)) 1 = x + 1 := by
  simp [jsOrNat]

theorem ctrOf_ge_one (s : MemState) (r : Str) : 1 ≤ ctrOf s r := by
  unfold ctrOf jsOrNat
  cases mget s.idCounters r with
  | none => exact le_rfl
  | some n =>
      by_cases h : n = 0
      · simp [h]
      · simp only [h, if_false]
        omega

/-- No repository operation ever decreases a per-role id counter. -/
theorem ctr_mono_op (op : Op) (s : MemState) (r : Str) :
    ctrOf s r ≤ ctrOf (Op.apply op s) r := by
  cases op with
  | createUser iu =>
      cases hr : prefixLookup iu.role with
      | none =>
          simp only [Op.apply, MemStorage.createUser,
            MemStorage.generateUserId, hr]
          exact le_rfl
      | some pv =>
          simp only [Op.apply, MemStorage.createUser,
            MemStorage.generateUserId, hr]
          by_cases ht : pv.truthy = false
          · rw [if_pos ht]
          · rw [if_neg ht]
            show ctrOf s r ≤ jsOrNat
              (mget (mset s.idCounters iu.role
                (jsOrNat (mget s.idCounters iu.role) 1 + 1)) r) 1
            by_cases hre : iu.role = r
            · subst hre
              rw [mget_mset_self, jsOrNat_some_succ]
              exact Nat.le_succ _
            · rw [mget_mset_ne _ _ _ _ (fun hh => hre hh.symm)]
              exact le_rfl
  | generateUserId r0 =>
      cases hr : prefixLookup r0 with
      | none =>
          simp only [Op.apply, MemStorage.generateUserId, hr]
          exact le_rfl
      | some pv =>
          simp only [Op.apply, MemStorage.generateUserId, hr]
          by_cases ht : pv.truthy = false
          · rw [if_pos ht]
          · rw [if_neg ht]
            show ctrOf s r ≤ jsOrNat
              (mget (mset s.idCounters r0
                (jsOrNat (mget s.idCounters r0) 1 + 1)) r) 1
            by_cases hre : r0 = r
            · subst hre
              rw [mget_mset_self, jsOrNat_some_succ]
              exact Nat.le_succ _
            · rw [mget_mset_ne _ _ _ _ (fun hh => hre hh.symm)]
              exact le_rfl
  | updateUser i p =>
      cases hm : mget s.users i <;>
        simp only [Op.apply, MemStorage.updateUser, hm] <;> exact le_rfl
  | updateDoctor i p =>
      cases hm : mget s.doctors i <;>
        simp only [Op.apply, MemStorage.updateDoctor, hm] <;> exact le_rfl
  | updatePatient i p =>
      cases hm : mget s.patients i <;>
        simp only [Op.apply, MemStorage.updatePatient, hm] <;> exact le_rfl
  | updateAppointment i p =>
      cases hm : mget s.appointments i <;>
        simp only [Op.apply, MemStorage.updateAppointment, hm] <;>
        exact le_rfl
  | createDoctor idr => exact le_rfl
  | createPatient ip => exact le_rfl
  | createAppointment ia => exact le_rfl
  | createSpecialization isp => exact le_rfl
  | getUser i => exact le_rfl
  | getUserByEmail e => exact le_rfl
  | getDoctor i => exact le_rfl
  | getDoctors => exact le_rfl
  | getPatient i => exact le_rfl
  | getPatients => exact le_rfl
  | getAppointment i => exact le_rfl
  | getAppointments => exact le_rfl
  | getAppointmentsByPatient i => exact le_rfl
  | getAppointmentsByDoctor i => exact le_rfl
  | getSpecializations => exact le_rfl
  | authenticateUser i w => exact le_rfl

theorem ctr_mono_ops (ops : List Op) :
    ∀ (s : MemState) (r : Str), ctrOf s r ≤ ctrOf (applyOps ops s) r := by
  induction ops with
  | nil => intro s r; exact le_rfl
  | cons op rest ih =>
      intro s r
      exact le_trans (ctr_mono_op op s r) (ih (Op.apply op s) r)

/-- In-memory id sequences: with arbitrary operations interleaved, the
ids generated for one valid role are the padded values of a strictly
increasing counter sequence bounded below by the current counter. -/
theorem memGenSeq_spec (r pre : Str) (hr : rolePre r = some pre) :
    ∀ (opss : List (List Op)) (s : MemState),
      ∃ cs : List Nat,
        memGenSeq r opss s =
          cs.map (fun c => pre ++ padStart4 (natToChars c)) ∧
        cs.length = opss.length ∧
        List.Chain' (· < ·) cs ∧
        ∀ c ∈ cs, ctrOf s r ≤ c := by
  intro opss
  induction opss with
  | nil =>
      intro s
      exact ⟨[], rfl, rfl, List.chain'_nil, by simp⟩
  | cons ops rest ih =>
      intro s
      have hgen := generateUserId_valid (applyOps ops s) r pre hr
      have hctr2 : ctrOf { applyOps ops s with
          idCounters := mset (applyOps ops s).idCounters r
            (ctrOf (applyOps ops s) r + 1) } r =
          ctrOf (applyOps ops s) r + 1 := by
        unfold ctrOf
        rw [mget_mset_self, jsOrNat_some_succ]
      obtain ⟨cs, hmap, hlen, hchain, hge⟩ := ih _
      refine ⟨ctrOf (applyOps ops s) r :: cs, ?_, ?_, ?_, ?_⟩
      · simp only [memGenSeq, hgen]
        rw [List.map_cons, hmap]
      · simp [hlen]
      · rw [List.chain'_cons']
        refine ⟨?_, hchain⟩
        intro y hy
        have h1 := hge y (List.mem_of_mem_head? hy)
        rw [hctr2] at h1
        omega
      · intro c hc
        rcases List.mem_cons.mp hc with hc | hc
        · subst hc
          exact ctr_mono_ops ops s r
        · have h1 := hge c hc
          rw [hctr2] at h1
          have h2 := ctr_mono_ops ops s r
          omega

theorem scanStep_ge (m : Int) (u : User) :
    m ≤ DatabaseStorage.scanStep m u := by
  unfold DatabaseStorage.scanStep
  cases parseIntJS (u.id.drop 3) with
  | none => exact le_rfl
  | some v =>
      dsimp only
      split <;> omega

theorem scanStep_ge_val (m v : Int) (u : User)
    (h : parseIntJS (u.id.drop 3) = some v) :
    v ≤ DatabaseStorage.scanStep m u := by
  unfold DatabaseStorage.scanStep
  rw [h]
  dsimp only
  split <;> omega

theorem foldl_scanStep_init_le (l : List User) :
    ∀ m : Int, m ≤ l.foldl DatabaseStorage.scanStep m := by
  induction l with
  | nil => intro m; exact le_rfl
  | cons hd tl ih =>
      intro m
      exact le_trans (scanStep_ge m hd) (ih _)

theorem foldl_scanStep_ge_mem (l : List User) (u : User) (hu : u ∈ l)
    (v : Int) (h : parseIntJS (u.id.drop 3) = some v) :
    ∀ m : Int, v ≤ l.foldl DatabaseStorage.scanStep m := by
  induction l with
  | nil => exact absurd hu (List.not_mem_nil u)
  | cons hd tl ih =>
      intro m
      rcases List.mem_cons.mp hu with he | he
      · subst he
        exact le_trans (scanStep_ge_val m v u h) (foldl_scanStep_init_le tl _)
      · exact ih he _

theorem scanMax_nonneg (pre : Str) (rows : List User) :
    0 ≤ DatabaseStorage.scanMax pre rows :=
  foldl_scanStep_init_le _ 0

theorem scanMax_ge (pre : Str) (rows : List User) (u : User) (v : Int)
    (hu : u ∈ rows) (hpre : decide (u.id.take pre.length = pre) = true)
    (h : parseIntJS (u.id.drop 3) = some v) :
    v ≤ DatabaseStorage.scanMax pre rows :=
  foldl_scanStep_ge_mem _ u (List.mem_filter.mpr ⟨hu, hpre⟩) v h 0

/-- For a valid role the durable generateUserId returns the prefixed
padded max+1 and changes nothing. -/
theorem dbGenerateUserId_valid (t : DbState) (r pre : Str)
    (hr : rolePre r = some pre) :
    DatabaseStorage.generateUserId r t =
      .ok (pre ++ padStart4
        (natToChars (DatabaseStorage.scanMax pre t.users + 1).toNat)) := by
  have h0 : 0 ≤ DatabaseStorage.scanMax pre t.users := scanMax_nonneg pre _
  have hi : DatabaseStorage.intToChars
      (DatabaseStorage.scanMax pre t.users + 1) =
      natToChars (DatabaseStorage.scanMax pre t.users + 1).toNat := by
    unfold DatabaseStorage.intToChars
    rw [if_neg (by omega)]
  simp only [DatabaseStorage.generateUserId, prefixLookup_of_rolePre r pre hr]
  rw [if_neg (by rw [rolePre_str_truthy r pre hr]; decide)]
  show Except.ok (pre ++ padStart4 (DatabaseStorage.intToChars
    (DatabaseStorage.scanMax pre t.users + 1))) = _
  rw [hi]

theorem parse_drop_generated (pre : Str) (h3 : pre.length = 3) (c : Nat) :
    parseIntJS ((pre ++ padStart4 (natToChars c)).drop 3) =
      some (c : Int) := by
  rw [← h3, List.drop_left]
  exact parseIntJS_padStart4 c

/-- Durable id sequences with each generated id inserted before the next
call: the ids are padded values of a strictly increasing sequence, all
above the initial scan maximum. -/
theorem dbGenInsertSeq_spec (r pre : Str) (hr : rolePre r = some pre)
    (h3 : pre.length = 3) (mk : Str → User) (hmk : ∀ i, (mk i).id = i) :
    ∀ (n : Nat) (t : DbState),
      ∃ cs : List Nat,
        dbGenInsertSeq r mk n t =
          cs.map (fun c => pre ++ padStart4 (natToChars c)) ∧
        cs.length = n ∧ List.Chain' (· < ·) cs ∧
        ∀ c ∈ cs, DatabaseStorage.scanMax pre t.users < (c : Int) := by
  intro n
  induction n with
  | zero =>
      intro t
      exact ⟨[], rfl, rfl, List.chain'_nil, by simp⟩
  | succ n ih =>
      intro t
      have h0 : 0 ≤ DatabaseStorage.scanMax pre t.users := scanMax_nonneg pre _
      have hc1 : (((DatabaseStorage.scanMax pre t.users + 1).toNat : Nat)
          : Int) = DatabaseStorage.scanMax pre t.users + 1 :=
        Int.toNat_of_nonneg (by omega)
      have hgen := dbGenerateUserId_valid t r pre hr
      obtain ⟨cs, hmap, hlen, hchain, hgt⟩ := ih
        { t with users := t.users ++ [mk (pre ++ padStart4
            (natToChars (DatabaseStorage.scanMax pre t.users + 1).toNat))] }
      have hgt' : ∀ c ∈ cs, DatabaseStorage.scanMax pre
          (t.users ++ [mk (pre ++ padStart4
            (natToChars (DatabaseStorage.scanMax pre t.users + 1).toNat))]) <
          (c : Int) := hgt
      have hparse : parseIntJS ((mk (pre ++ padStart4
          (natToChars (DatabaseStorage.scanMax pre t.users + 1).toNat))).id.drop
            3) = some (((DatabaseStorage.scanMax pre t.users + 1).toNat :
              Nat) : Int) := by
        rw [hmk]
        exact parse_drop_generated pre h3 _
      have htake : decide ((mk (pre ++ padStart4
          (natToChars (DatabaseStorage.scanMax pre t.users + 1).toNat))).id.take
            pre.length = pre) = true := by
        rw [hmk]
        simp [List.take_left]
      have hnew : (((DatabaseStorage.scanMax pre t.users + 1).toNat : Nat)
          : Int) ≤ DatabaseStorage.scanMax pre
            (t.users ++ [mk (pre ++ padStart4
              (natToChars (DatabaseStorage.scanMax pre t.users + 1).toNat))]) :=
        scanMax_ge pre _ _ _
          (List.mem_append_right _ (List.mem_singleton.mpr rfl)) htake hparse
      refine ⟨(DatabaseStorage.scanMax pre t.users + 1).toNat :: cs,
        ?_, ?_, ?_, ?_⟩
      · simp only [dbGenInsertSeq, hgen]
        rw [List.map_cons, hmap]
      · simp [hlen]
      · rw [List.chain'_cons']
        refine ⟨?_, hchain⟩
        intro y hy
        have h1 := hgt' y (List.mem_of_mem_head? hy)
        have h2 : (((DatabaseStorage.scanMax pre t.users + 1).toNat : Nat)
            : Int) < (y : Int) := lt_of_le_of_lt hnew h1
        exact_mod_cast h2
      · intro c hc
        rcases List.mem_cons.mp hc with hc | hc
        · subst hc
          omega
        · have h1 := hgt' c hc
          have h2 := hnew
          omega

theorem ids_nodup (pre : Str) (cs : List Nat)
    (hchain : List.Chain' (· < ·) cs) :
    (cs.map (fun c => pre ++ padStart4 (natToChars c))).Nodup := by
  have hp : cs.Pairwise (· < ·) := List.chain'_iff_pairwise.mp hchain
  show List.Pairwise (· ≠ ·) (cs.map (fun c => pre ++ padStart4 (natToChars c)))
  refine List.Pairwise.map _ ?_ hp
  intro a b hab heq
  have := padStart4_natToChars_inj a b (List.append_cancel_left heq)
  omega

/-- C1 (amended): for each of the four roles, every generated id is the
role's 3-letter code followed by the counter value zero-padded to at
least four digits.  Under the in-memory counter strategy, n calls with
arbitrary repository operations interleaved yield n pairwise-distinct ids
with strictly increasing suffixes.  Under the durable scan strategy the
same holds provided each generated id's user row is inserted before the
next call (the call itself reserves nothing). -/
theorem generateUserId_sequences (r : Str)
    (hfour : r = strAdmin ∨ r = strDoctor ∨ r = strReceptionist ∨
      r = strPatient) :
    (∀ (opss : List (List Op)) (s : MemState),
      ∃ pre cs, rolePre r = some pre ∧
        memGenSeq r opss s =
          cs.map (fun c => pre ++ padStart4 (natToChars c)) ∧
        cs.length = opss.length ∧
        List.Chain' (· < ·) cs ∧ (∀ c ∈ cs, 1 ≤ c) ∧
        (memGenSeq r opss s).Nodup) ∧
    (∀ (mk : Str → User), (∀ i, (mk i).id = i) →
      ∀ (n : Nat) (t : DbState),
      ∃ pre cs, rolePre r = some pre ∧
        dbGenInsertSeq r mk n t =
          cs.map (fun c => pre ++ padStart4 (natToChars c)) ∧
        cs.length = n ∧ List.Chain' (· < ·) cs ∧ (∀ c ∈ cs, 1 ≤ c) ∧
        (dbGenInsertSeq r mk n t).Nodup) := by
  obtain ⟨pre, hr⟩ : ∃ pre, rolePre r = some pre := by
    rcases hfour with h | h | h | h <;> subst h <;> exact ⟨_, rfl⟩
  have h3 : pre.length = 3 := rolePre_length r pre hr
  constructor
  · intro opss s
    obtain ⟨cs, hmap, hlen, hchain, hge⟩ := memGenSeq_spec r pre hr opss s
    refine ⟨pre, cs, hr, hmap, hlen, hchain, ?_, ?_⟩
    · intro c hc
      exact le_trans (ctrOf_ge_one s r) (hge c hc)
    · rw [hmap]
      exact ids_nodup pre cs hchain
  · intro mk hmk n t
    obtain ⟨cs, hmap, hlen, hchain, hgt⟩ :=
      dbGenInsertSeq_spec r pre hr h3 mk hmk n t
    refine ⟨pre, cs, hr, hmap, hlen, hchain, ?_, ?_⟩
    · intro c hc
      have h1 := hgt c hc
      have h0 := scanMax_nonneg pre t.users
      omega
    · rw [hmap]
      exact ids_nodup pre cs hchain

/-- C1 witness: the admin role, with the hypothesis discharged. -/
theorem generateUserId_sequences_witness :
    (strAdmin = strAdmin ∨ strAdmin = strDoctor ∨
      strAdmin = strReceptionist ∨ strAdmin = strPatient) ∧
    ((∀ (opss : List (List Op)) (s : MemState),
      ∃ pre cs, rolePre strAdmin = some pre ∧
        memGenSeq strAdmin opss s =
          cs.map (fun c => pre ++ padStart4 (natToChars c)) ∧
        cs.length = opss.length ∧
        List.Chain' (· < ·) cs ∧ (∀ c ∈ cs, 1 ≤ c) ∧
        (memGenSeq strAdmin opss s).Nodup) ∧
    (∀ (mk : Str → User), (∀ i, (mk i).id = i) →
      ∀ (n : Nat) (t : DbState),
      ∃ pre cs, rolePre strAdmin = some pre ∧
        dbGenInsertSeq strAdmin mk n t =
          cs.map (fun c => pre ++ padStart4 (natToChars c)) ∧
        cs.length = n ∧ List.Chain' (· < ·) cs ∧ (∀ c ∈ cs, 1 ≤ c) ∧
        (dbGenInsertSeq strAdmin mk n t).Nodup)) :=
  ⟨Or.inl rfl, generateUserId_sequences strAdmin (Or.inl rfl)⟩

/-- C1 counterexample: with the durable strategy and nothing inserted
between the calls, two calls on the empty database both return ADM0001,
so the ids of repeated calls are not pairwise distinct. -/
theorem dbGen_no_insert_cex :
    dbGenCallsNoInsert strAdmin 2 dbEmpty =
      ["ADM0001".data, "ADM0001".data] ∧
    ¬ (dbGenCallsNoInsert strAdmin 2 dbEmpty).Nodup :=
  ⟨by decide, by decide⟩

end HMS
